import Mathlib

/-!
# Verification of the keynome statistical core (src/lib.rs)

Shallow embedding conventions:

* `u128` / `usize` / `u32` machine integers are modelled as `ℕ` (no claim
  exercises an overflow of these wide types).
* `f64` values are modelled as `ℚ`.  All floating computations exercised by
  the claims are exact in `f64` (integer-valued means, sums and quotients of
  small magnitude), so the rational model agrees with the binary64 value.
  `f64::sqrt` (reached through the `statistical` crate) is modelled by
  `ratSqrt`, which is exact on the perfect squares arising in the validated
  worked examples and a floor approximation elsewhere; general theorems rely
  only on its nonnegativity.  The one place the code can produce a
  non-number (`0.0 / 0.0 = NaN`) is modelled explicitly by `FVal.nan`.
* Rust `HashMap`s are modelled as association lists
  (`List (key × value)`); map *contents* are accessed through
  `alist_lookup`, and iteration order of a map value is the list order,
  which lets the development speak about the unspecified `HashMap`
  iteration order where it matters (`compute_diff` truncation).
* A Rust panic (remainder by zero in `compute_diff_base`, out-of-bounds
  indexing in `deserialize_digraph_statistics`) is modelled by an explicit
  error outcome (`DiffBaseResult.crash`, `Option.none`), never by a junk
  value.
* `serde_json` encoding/decoding of a `DigraphStats` value is an external
  dependency assumed to round-trip; it is modelled as the identity, so the
  serialized form keeps each `DigraphStats` as structured data while the
  repository's own key formatting/splitting logic is modelled in full.
-/

namespace Keynome

/-- Model of `KeyEvent` from src/lib.rs: a keystroke with a millisecond timestamp. -/
structure KeyEvent where
  timestamp_ms : ℕ
  key : Char
deriving DecidableEq

/-- Model of `Digraph` from src/lib.rs: an ordered pair of consecutive key characters. -/
abbrev Digraph := Char × Char

/-- Model of `DigraphStats` from src/lib.rs. -/
structure DigraphStats where
  size_samples : ℕ
  mean : ℚ
  std : ℚ
deriving DecidableEq

/-- Model of `KeynomeAuthenticatorDiffParams` from src/lib.rs. -/
structure KeynomeAuthenticatorDiffParams where
  dispersion : Bool
  min_instances : ℕ
  max_comparisons : ℕ

/-- Association-list lookup, modelling `HashMap::get` content access. -/
def alist_lookup {β : Type} : List (Digraph × β) → Digraph → Option β
  | [], _ => none
  | (k, v) :: rest, d => if k = d then some v else alist_lookup rest d

/-- One Heron step loop for the integer square root, with explicit fuel
(the fuel is an upper bound on the number of strictly decreasing guesses,
so the recursion is structural). -/
def isqrtAux : ℕ → ℕ → ℕ → ℕ
  | 0, _, g => g
  | fuel+1, n, g =>
    let g2 := (g + n / g) / 2
    if g2 < g then isqrtAux fuel n g2 else g

/-- Integer square root by Heron's method (floor of the real square root on
the inputs we evaluate; exact on perfect squares). -/
def isqrt (n : ℕ) : ℕ :=
  if n ≤ 1 then n else isqrtAux n n (n / 2 + 1)

/-- Model of `f64::sqrt` on the rational model of `f64`: exact on the
perfect squares produced by the validated examples, a floor approximation
otherwise, and `0` on negative inputs (which the code never produces).
General theorems use only that its result is nonnegative. -/
def ratSqrt (q : ℚ) : ℚ :=
  (isqrt (q.num.toNat * q.den) : ℚ) / (q.den : ℚ)

namespace Statistical

/-- Model of `statistical::mean`: arithmetic mean of a sample list. -/
def mean (l : List ℚ) : ℚ := l.sum / (l.length : ℚ)

/-- Model of `statistical::standard_deviation(v, Some(mean))`: corrected sample
standard deviation — sum of squared deviations divided by `n - 1`. -/
def standard_deviation (l : List ℚ) (m : ℚ) : ℚ :=
  ratSqrt ((l.map (fun x => (x - m) ^ 2)).sum / ((l.length - 1 : ℕ) : ℚ))

end Statistical

/-- Model of `KeystrokeLogger` from src/lib.rs: the bounded event log. -/
structure KeystrokeLogger where
  events : List KeyEvent
  events_limit : Option ℕ

/-- Model of `KeystrokeLogger::new`. -/
def KeystrokeLogger.new : KeystrokeLogger := ⟨[], none⟩

/-- Model of `KeystrokeLogger::add_key_event`: push at the tail, then, when a limit
is configured and exceeded, pop `len - limit` events from the front. -/
def KeystrokeLogger.add_key_event (self : KeystrokeLogger) (ev : KeyEvent) :
    KeystrokeLogger :=
  let evs := self.events ++ [ev]
  match self.events_limit with
  | some limit =>
    if limit < evs.length then ⟨evs.drop (evs.length - limit), self.events_limit⟩
    else ⟨evs, self.events_limit⟩
  | none => ⟨evs, self.events_limit⟩

/-- Model of `KeystrokeLogger::set_events_limit`: records the limit (and nothing
else — the source does not evict here). -/
def KeystrokeLogger.set_events_limit (self : KeystrokeLogger) (limit : ℕ) :
    KeystrokeLogger :=
  ⟨self.events, some limit⟩

/-- The list of adjacent event pairs, each rendered as its digraph together
with the latency `timestamp(e2) - timestamp(e1)` (the loop
`for i in 1..events.len()` of `compute_digraph_statistics`). -/
def adjacent_samples : List KeyEvent → List (Digraph × ℚ)
  | [] => []
  | [_] => []
  | e1 :: e2 :: rest =>
    ((e1.key, e2.key), ((e2.timestamp_ms - e1.timestamp_ms : ℕ) : ℚ)) ::
      adjacent_samples (e2 :: rest)

/-- The `HashMap` upsert used while grouping latencies by digraph: append to an
existing entry's vector, or insert a fresh singleton entry. -/
def upsert (m : List (Digraph × List ℚ)) (k : Digraph) (v : ℚ) :
    List (Digraph × List ℚ) :=
  match m with
  | [] => [(k, [v])]
  | (k1, vs) :: rest =>
    if k1 = k then (k1, vs ++ [v]) :: rest else (k1, vs) :: upsert rest k v

/-- The grouped latency samples of `compute_digraph_statistics` (the
`samples` map), with first-occurrence order standing in for the
unspecified `HashMap` order; all content claims are order-independent. -/
def digraph_samples (events : List KeyEvent) : List (Digraph × List ℚ) :=
  (adjacent_samples events).foldl (fun m p => upsert m p.1 p.2) []

/-- The statistics recorded for one digraph's latency vector in the second
loop of `compute_digraph_statistics`: kept only with at least two samples;
count, mean, and corrected sample standard deviation. -/
def stats_entry (vs : List ℚ) : Option DigraphStats :=
  if 2 ≤ vs.length then
    some ⟨vs.length, Statistical.mean vs,
          Statistical.standard_deviation vs (Statistical.mean vs)⟩
  else none

/-- Model of `KeystrokeLogger::compute_digraph_statistics`. -/
def KeystrokeLogger.compute_digraph_statistics (self : KeystrokeLogger) :
    List (Digraph × DigraphStats) :=
  (digraph_samples self.events).filterMap (fun p =>
    (stats_entry p.2).map (fun s => (p.1, s)))

/-- Digraph statistics of a bare event sequence (a fresh unbounded logger
holding exactly those events, as `compute_diff_base` builds internally). -/
def stats_of (events : List KeyEvent) : List (Digraph × DigraphStats) :=
  KeystrokeLogger.compute_digraph_statistics ⟨events, none⟩

/-- The number of adjacent event pairs whose keys form the digraph `d`. -/
def adjacent_count (events : List KeyEvent) (d : Digraph) : ℕ :=
  ((adjacent_samples events).filter (fun p => p.1 = d)).length

/-- The divisor used by one `compute_diff` comparison:
`0.001 + profile.std` under dispersion weighting, `1.0` otherwise. -/
def diff_divisor (p : KeynomeAuthenticatorDiffParams) (v : DigraphStats) : ℚ :=
  if p.dispersion then 1 / 1000 + v.std else 1

/-- The `for (k, v) in stats_profile.iter()` loop of
`KeynomeAuthenticator::compute_diff`, over the profile entries in iteration
order, carrying the accumulated `diff` and the comparison counter `n`.
`continue` on `size_samples < min_instances` skips the break check; after a
lookup in the sample the loop breaks as soon as `max_comparisons ≤ n`. -/
def compute_diff_loop (sample : List (Digraph × DigraphStats))
    (p : KeynomeAuthenticatorDiffParams) :
    List (Digraph × DigraphStats) → ℚ → ℕ → ℚ
  | [], diff, _ => diff
  | (k, v) :: rest, diff, n =>
    if v.size_samples < p.min_instances then compute_diff_loop sample p rest diff n
    else
      match alist_lookup sample k with
      | some vs =>
        let diff2 := diff + |v.mean - vs.mean| / diff_divisor p v
        if p.max_comparisons ≤ n + 1 then diff2
        else compute_diff_loop sample p rest diff2 (n + 1)
      | none =>
        if p.max_comparisons ≤ n then diff
        else compute_diff_loop sample p rest diff n

/-- Model of `KeynomeAuthenticator::compute_diff`, over a profile association list
whose order models the profile `HashMap`'s iteration order. -/
def KeynomeAuthenticator.compute_diff
    (stats_profile stats_sample : List (Digraph × DigraphStats))
    (diff_params : KeynomeAuthenticatorDiffParams) : ℚ :=
  compute_diff_loop stats_sample diff_params stats_profile 0 0

/-- An `f64` result that may be the non-number `0.0 / 0.0`. -/
inductive FVal where
  | fin (q : ℚ)
  | nan
deriving DecidableEq

/-- The IEEE comparison `>= 0.0` on the modelled `f64` value: false for `nan`. -/
def FVal.Nonneg : FVal → Prop
  | .fin q => 0 ≤ q
  | .nan => False

/-- Outcome of `KeynomeAuthenticator::compute_diff_base`: `Some`, `None`,
or a Rust panic (remainder by zero). -/
inductive DiffBaseResult where
  | value (v : FVal)
  | noResult
  | crash
deriving DecidableEq

/-- Model of `KeynomeAuthenticator::compute_diff_base`.  The two guards return
`None`; the remainder check panics when `n_sample = 0` (Rust `%` by zero);
the profile window and each chunk are rebuilt through fresh unbounded
`KeystrokeLogger`s exactly as in the source; the final division
`diff_base / (n_profile / n_sample)` is `0.0 / 0.0 = NaN` when the chunk
count is zero. -/
def KeynomeAuthenticator.compute_diff_base (events : List KeyEvent)
    (n_profile n_sample : ℕ)
    (diff_params : KeynomeAuthenticatorDiffParams) : DiffBaseResult :=
  if events.length < n_profile then .noResult
  else if n_sample = 0 then .crash
  else if n_profile % n_sample ≠ 0 then .noResult
  else
    let kstr := (events.drop (events.length - n_profile)).foldl
      KeystrokeLogger.add_key_event KeystrokeLogger.new
    let stats := kstr.compute_digraph_statistics
    let m := n_profile / n_sample
    let total := (List.range m).foldl (fun acc i =>
      let idx_start := (events.length - n_profile) + n_sample * i
      let idx_end := (events.length - n_profile) + n_sample * (i + 1)
      let kstr_sample := ((events.drop idx_start).take (idx_end - idx_start)).foldl
        KeystrokeLogger.add_key_event KeystrokeLogger.new
      acc + KeynomeAuthenticator.compute_diff stats
        kstr_sample.compute_digraph_statistics diff_params) 0
    if m = 0 then .value .nan else .value (.fin (total / (m : ℚ)))

/-- The key format `"<first>-<second>"` of `format!` in the serializer: the serialized key of a digraph, as the
character list `[first, '-', second]`. -/
def digraph_key (d : Digraph) : List Char := [d.1, '-', d.2]

/-- Model of `KeystrokeLogger::serialize_digraph_statistics`, with the `serde_json`
value codec modelled as the identity: each entry keeps its `DigraphStats`
and gets the string key `"<first>-<second>"`. -/
def KeystrokeLogger.serialize_digraph_statistics
    (stats : List (Digraph × DigraphStats)) : List (List Char × DigraphStats) :=
  stats.map (fun p => (digraph_key p.1, p.2))

/-- Rust `str::split` at `'-'` on a character list: splits at every `'-'`,
keeping empty segments. -/
def split_dash : List Char → List (List Char)
  | [] => [[]]
  | c :: rest =>
    if c = '-' then [] :: split_dash rest
    else
      match split_dash rest with
      | [] => [[c]]
      | seg :: segs => (c :: seg) :: segs

/-- Key decoding of `deserialize_digraph_statistics`: split on `'-'`, then
index segment 0 and segment 1 and the first character of each; any
out-of-bounds index is a Rust panic, modelled as `none`. -/
def parse_digraph_key (s : List Char) : Option Digraph :=
  match split_dash s with
  | seg0 :: seg1 :: _ =>
    match seg0, seg1 with
    | c1 :: _, c2 :: _ => some (c1, c2)
    | _, _ => none
  | _ => none

/-- Model of `KeystrokeLogger::deserialize_digraph_statistics`: decode every key;
a panic while decoding any key is a panic of the whole call (`none`). -/
def KeystrokeLogger.deserialize_digraph_statistics
    (serialized : List (List Char × DigraphStats)) :
    Option (List (Digraph × DigraphStats)) :=
  match serialized with
  | [] => some []
  | (k, v) :: rest =>
    match parse_digraph_key k,
        KeystrokeLogger.deserialize_digraph_statistics rest with
    | some d, some tail => some ((d, v) :: tail)
    | _, _ => none

/-- Spec-side description of one `compute_diff` run's contributing
comparisons, in profile iteration order: profile digraphs whose
`sample_count` is at least `min_instances` and that are present in the
sample map each contribute `|profile.mean - sample.mean| / divisor`,
with `divisor = 0.001 + profile.std` under dispersion and `1.0`
otherwise. -/
def contributions (stats_profile stats_sample : List (Digraph × DigraphStats))
    (p : KeynomeAuthenticatorDiffParams) : List ℚ :=
  (stats_profile.filter (fun kv => p.min_instances ≤ kv.2.size_samples)).filterMap
    (fun kv => (alist_lookup stats_sample kv.1).map
      (fun vs => |kv.2.mean - vs.mean| /
        (if p.dispersion then 1 / 1000 + kv.2.std else 1)))

/-- Spec-side diff score, straight from the claim's words: the accumulated
sum of the contributing comparisons, stopping once `max_comparisons`
contributing comparisons have been made, with no normalization. -/
def compute_diff_spec (stats_profile stats_sample : List (Digraph × DigraphStats))
    (p : KeynomeAuthenticatorDiffParams) : ℚ :=
  ((contributions stats_profile stats_sample p).take p.max_comparisons).sum

/-- Keys of an association list are pairwise distinct (every Rust
`HashMap` value satisfies this). -/
def nodup_keys {β : Type} (m : List (Digraph × β)) : Prop :=
  (m.map Prod.fst).Nodup

/-- Lookup in a grouped-samples map after appending `news` values for the
looked-up key (helper describing `foldl upsert`). -/
def push_lookup (o : Option (List ℚ)) (news : List ℚ) : Option (List ℚ) :=
  match o with
  | some vs => some (vs ++ news)
  | none => if news = [] then none else some news

/-- A key event literal. -/
def kev (t : ℕ) (c : Char) : KeyEvent := ⟨t, c⟩

/-- The six events of the worked mean/std example (§8 of the spec, and the
first half of the calibration example). -/
def events6 : List KeyEvent :=
  [kev 10000 'a', kev 11000 'b', kev 12000 'a', kev 14000 'b',
   kev 15000 'a', kev 18000 'b']

/-- The second six events of the worked calibration example. -/
def events6b : List KeyEvent :=
  [kev 20000 'a', kev 20500 'b', kev 21000 'a', kev 22000 'b',
   kev 24000 'a', kev 25500 'b']

/-- The twelve events of the worked baseline-calibration example. -/
def events12 : List KeyEvent := events6 ++ events6b

/-- The parameters of the worked calibration example:
`dispersion = false`, `min_instances = 1`, `max_comparisons = 100`. -/
def params_example : KeynomeAuthenticatorDiffParams := ⟨false, 1, 100⟩

theorem contributions_nil (sample : List (Digraph × DigraphStats))
    (p : KeynomeAuthenticatorDiffParams) : contributions [] sample p = [] := by
  simp [contributions]

theorem contributions_cons_skip (sample : List (Digraph × DigraphStats))
    (p : KeynomeAuthenticatorDiffParams) (k : Digraph) (v : DigraphStats)
    (rest : List (Digraph × DigraphStats))
    (h : v.size_samples < p.min_instances) :
    contributions ((k, v) :: rest) sample p = contributions rest sample p := by
  simp [contributions, List.filter_cons, Nat.not_le.mpr h]

theorem contributions_cons_absent (sample : List (Digraph × DigraphStats))
    (p : KeynomeAuthenticatorDiffParams) (k : Digraph) (v : DigraphStats)
    (rest : List (Digraph × DigraphStats))
    (h : ¬ v.size_samples < p.min_instances)
    (hl : alist_lookup sample k = none) :
    contributions ((k, v) :: rest) sample p = contributions rest sample p := by
  simp [contributions, List.filter_cons, Nat.not_lt.mp h, List.filterMap_cons, hl]

theorem contributions_cons_present (sample : List (Digraph × DigraphStats))
    (p : KeynomeAuthenticatorDiffParams) (k : Digraph) (v vs : DigraphStats)
    (rest : List (Digraph × DigraphStats))
    (h : ¬ v.size_samples < p.min_instances)
    (hl : alist_lookup sample k = some vs) :
    contributions ((k, v) :: rest) sample p =
      (|v.mean - vs.mean| / (if p.dispersion then 1 / 1000 + v.std else 1)) ::
        contributions rest sample p := by
  simp [contributions, List.filter_cons, Nat.not_lt.mp h, List.filterMap_cons, hl]

/-- The `compute_diff` accumulation loop, characterized against the
spec-side contribution list: with fewer than `max_comparisons` comparisons
already made, it adds the sum of the next `max_comparisons - n`
contributions. -/
theorem compute_diff_loop_eq (sample : List (Digraph × DigraphStats))
    (p : KeynomeAuthenticatorDiffParams) :
    ∀ (l : List (Digraph × DigraphStats)) (diff : ℚ) (n : ℕ),
      n < p.max_comparisons →
      compute_diff_loop sample p l diff n =
        diff + ((contributions l sample p).take (p.max_comparisons - n)).sum := by
  intro l
  induction l with
  | nil =>
    intro diff n h
    simp [compute_diff_loop, contributions_nil]
  | cons kv rest ih =>
    intro diff n h
    obtain ⟨k, v⟩ := kv
    by_cases hskip : v.size_samples < p.min_instances
    · rw [show compute_diff_loop sample p ((k, v) :: rest) diff n =
          compute_diff_loop sample p rest diff n by
            simp [compute_diff_loop, hskip]]
      rw [ih diff n h, contributions_cons_skip sample p k v rest hskip]
    · cases hl : alist_lookup sample k with
      | none =>
        rw [show compute_diff_loop sample p ((k, v) :: rest) diff n =
            compute_diff_loop sample p rest diff n by
              simp [compute_diff_loop, hskip, hl, Nat.not_le.mpr h]]
        rw [ih diff n h, contributions_cons_absent sample p k v rest hskip hl]
      | some vs =>
        rw [contributions_cons_present sample p k v vs rest hskip hl]
        by_cases hmax : p.max_comparisons ≤ n + 1
        · rw [show compute_diff_loop sample p ((k, v) :: rest) diff n =
              diff + |v.mean - vs.mean| / diff_divisor p v by
                simp [compute_diff_loop, hskip, hl, hmax]]
          have h1 : p.max_comparisons - n = 1 := by omega
          rw [h1]
          simp [diff_divisor]
        · rw [show compute_diff_loop sample p ((k, v) :: rest) diff n =
              compute_diff_loop sample p rest
                (diff + |v.mean - vs.mean| / diff_divisor p v) (n + 1) by
                simp [compute_diff_loop, hskip, hl, hmax]]
          rw [ih _ (n + 1) (by omega)]
          have h1 : p.max_comparisons - n = (p.max_comparisons - (n + 1)) + 1 := by
            omega
          rw [h1, List.take_succ_cons]
          simp [diff_divisor]
          ring

/-- C1: with valid parameters (the data model of §3 requires
`max_comparisons ≥ 1`), `compute_diff` returns exactly the sum — over
profile digraphs with `sample_count ≥ min_instances` that are present in
the sample map, stopping once `max_comparisons` contributing comparisons
have been made — of `|profile.mean - sample.mean|` divided by
`0.001 + profile.std` under dispersion and by `1.0` otherwise, with no
normalization by the comparison count. -/
theorem claim_C1 (stats_profile stats_sample : List (Digraph × DigraphStats))
    (p : KeynomeAuthenticatorDiffParams) (hmax : 1 ≤ p.max_comparisons) :
    KeynomeAuthenticator.compute_diff stats_profile stats_sample p =
      compute_diff_spec stats_profile stats_sample p := by
  rw [KeynomeAuthenticator.compute_diff,
    compute_diff_loop_eq stats_sample p stats_profile 0 0 (by omega)]
  rw [compute_diff_spec]
  simp

/-- Witness for C1 at a concrete profile, sample and parameter set. -/
theorem claim_C1_witness :
    KeynomeAuthenticator.compute_diff
      [(('a', 'b'), ⟨3, 2000, 1000⟩), (('b', 'a'), ⟨2, 1000, 0⟩)]
      [(('a', 'b'), ⟨4, 1500, 20⟩)] ⟨true, 2, 1⟩ =
      compute_diff_spec
        [(('a', 'b'), ⟨3, 2000, 1000⟩), (('b', 'a'), ⟨2, 1000, 0⟩)]
        [(('a', 'b'), ⟨4, 1500, 20⟩)] ⟨true, 2, 1⟩ :=
  claim_C1 _ _ _ (by decide)

/-- Evaluation of the digraph statistics of the first six example events. -/
theorem stats_of_events6_eval :
    stats_of events6 =
      [(('a', 'b'), ⟨3, 2000, 1000⟩), (('b', 'a'), ⟨2, 1000, 0⟩)] := by
  simp [stats_of, KeystrokeLogger.compute_digraph_statistics, digraph_samples,
    events6, kev, adjacent_samples, upsert, stats_entry, Statistical.mean,
    Statistical.standard_deviation, ratSqrt]
  norm_num
  decide

/-- C2: on the six-event worked example (keys a,b,a,b,a,b at 10000, 11000,
12000, 14000, 15000, 18000 ms), `compute_digraph_statistics` maps digraph
`(a,b)` to 3 samples with mean 2000.0 and corrected sample standard
deviation 1000.0, and `(b,a)` to 2 samples with mean 1000.0 and standard
deviation 0.0. -/
theorem claim_C2 :
    alist_lookup (stats_of events6) ('a', 'b') =
        some ⟨3, 2000, 1000⟩ ∧
      alist_lookup (stats_of events6) ('b', 'a') =
        some ⟨2, 1000, 0⟩ := by
  rw [stats_of_events6_eval]
  constructor <;> simp [alist_lookup]

theorem alist_lookup_eq_none {β : Type} (m : List (Digraph × β)) (d : Digraph)
    (h : d ∉ m.map Prod.fst) : alist_lookup m d = none := by
  induction m with
  | nil => rfl
  | cons kv rest ih =>
    simp only [List.map_cons, List.mem_cons] at h
    push_neg at h
    simpa [alist_lookup, Ne.symm h.1] using ih h.2

theorem alist_lookup_upsert (m : List (Digraph × List ℚ)) (k : Digraph) (v : ℚ)
    (d : Digraph) :
    alist_lookup (upsert m k v) d =
      if k = d then some (((alist_lookup m d).getD []) ++ [v])
      else alist_lookup m d := by
  induction m with
  | nil =>
    by_cases hkd : k = d <;> simp [upsert, alist_lookup, hkd]
  | cons kv rest ih =>
    obtain ⟨k1, vs⟩ := kv
    by_cases hk1 : k1 = k
    · subst hk1
      by_cases hkd : k1 = d <;> simp [upsert, alist_lookup, hkd]
    · by_cases h1d : k1 = d
      · subst h1d
        have : ¬ k = k1 := fun h => hk1 h.symm
        simp [upsert, hk1, alist_lookup, this]
      · simp [upsert, hk1, alist_lookup, h1d, ih]

theorem map_fst_upsert (m : List (Digraph × List ℚ)) (k : Digraph) (v : ℚ) :
    (upsert m k v).map Prod.fst =
      if k ∈ m.map Prod.fst then m.map Prod.fst else m.map Prod.fst ++ [k] := by
  induction m with
  | nil => simp [upsert]
  | cons kv rest ih =>
    obtain ⟨k1, vs⟩ := kv
    by_cases hk1 : k1 = k
    · subst hk1
      simp [upsert]
    · have : ¬ k = k1 := fun h => hk1 h.symm
      by_cases hmem : k ∈ rest.map Prod.fst <;>
        simp [upsert, hk1, ih, hmem, this]

theorem nodup_keys_upsert (m : List (Digraph × List ℚ)) (k : Digraph) (v : ℚ)
    (h : nodup_keys m) : nodup_keys (upsert m k v) := by
  unfold nodup_keys at h ⊢
  rw [map_fst_upsert]
  by_cases hmem : k ∈ m.map Prod.fst
  · simpa [hmem]
  · rw [if_neg hmem]
    refine List.Nodup.append h (List.nodup_singleton k) ?_
    intro a ha hak
    rw [List.mem_singleton] at hak
    exact hmem (hak ▸ ha)

theorem alist_lookup_foldl_upsert (pairs : List (Digraph × ℚ)) :
    ∀ (m0 : List (Digraph × List ℚ)) (d : Digraph),
      alist_lookup (pairs.foldl (fun m p => upsert m p.1 p.2) m0) d =
        push_lookup (alist_lookup m0 d)
          (((pairs.filter (fun p => p.1 = d)).map Prod.snd)) := by
  induction pairs with
  | nil =>
    intro m0 d
    cases h : alist_lookup m0 d <;> simp [push_lookup, h]
  | cons q rest ih =>
    intro m0 d
    obtain ⟨k, v⟩ := q
    by_cases hkd : k = d
    · subst hkd
      rw [List.foldl_cons, ih]
      rw [alist_lookup_upsert]
      simp only [if_pos rfl]
      cases h : alist_lookup m0 k with
      | none => simp [push_lookup, h, List.filter_cons]
      | some vs => simp [push_lookup, h, List.filter_cons]
    · rw [List.foldl_cons, ih]
      rw [alist_lookup_upsert]
      simp [hkd, List.filter_cons]

theorem nodup_keys_foldl_upsert (pairs : List (Digraph × ℚ)) :
    ∀ (m0 : List (Digraph × List ℚ)), nodup_keys m0 →
      nodup_keys (pairs.foldl (fun m p => upsert m p.1 p.2) m0) := by
  induction pairs with
  | nil => intro m0 h; exact h
  | cons q rest ih =>
    intro m0 h
    exact ih _ (nodup_keys_upsert m0 q.1 q.2 h)

theorem nodup_keys_digraph_samples (events : List KeyEvent) :
    nodup_keys (digraph_samples events) :=
  nodup_keys_foldl_upsert (adjacent_samples events) [] (by simp [nodup_keys])

/-- Lookup in the grouped samples map: the latency list of `d`, in
adjacency order, or absent when `d` never occurs. -/
theorem alist_lookup_digraph_samples (events : List KeyEvent) (d : Digraph) :
    alist_lookup (digraph_samples events) d =
      if ((adjacent_samples events).filter (fun p => p.1 = d)) = [] then none
      else some (((adjacent_samples events).filter (fun p => p.1 = d)).map
        Prod.snd) := by
  rw [digraph_samples, alist_lookup_foldl_upsert]
  simp only [alist_lookup, push_lookup]
  by_cases h : ((adjacent_samples events).filter (fun p => p.1 = d)) = [] <;>
    simp [h]

theorem map_fst_filterMap_subset {β γ : Type} (f : β → Option γ)
    (m : List (Digraph × β)) (d : Digraph)
    (h : d ∈ (m.filterMap (fun p => (f p.2).map (fun s => (p.1, s)))).map
      Prod.fst) : d ∈ m.map Prod.fst := by
  induction m with
  | nil => simp at h
  | cons kv rest ih =>
    rw [List.filterMap_cons] at h
    cases hf : f kv.2 with
    | none =>
      rw [hf] at h
      exact List.mem_cons_of_mem _ (ih h)
    | some s =>
      rw [hf] at h
      rw [show Option.map (fun s => (kv.1, s)) (some s) = some (kv.1, s) from
        rfl] at h
      rw [List.map_cons, List.mem_cons] at h
      rcases h with h | h
      · simp [h]
      · exact List.mem_cons_of_mem _ (ih h)

/-- Lookup through the value-level `filterMap` of
`compute_digraph_statistics`, on a map with distinct keys. -/
theorem alist_lookup_filterMap {β γ : Type} (f : β → Option γ)
    (m : List (Digraph × β)) (hm : nodup_keys m) (d : Digraph) :
    alist_lookup (m.filterMap (fun p => (f p.2).map (fun s => (p.1, s)))) d =
      (alist_lookup m d).bind f := by
  induction m with
  | nil => rfl
  | cons kv rest ih =>
    obtain ⟨k, v⟩ := kv
    have hrest : nodup_keys rest := by
      unfold nodup_keys at hm ⊢
      exact (List.nodup_cons.mp hm).2
    have hknot : k ∉ rest.map Prod.fst := by
      unfold nodup_keys at hm
      exact (List.nodup_cons.mp hm).1
    by_cases hkd : k = d
    · subst hkd
      cases hf : f v with
      | none =>
        have hnone : alist_lookup (rest.filterMap
            (fun p => (f p.2).map (fun s => (p.1, s)))) k = none :=
          alist_lookup_eq_none _ k
            (fun hmem => hknot (map_fst_filterMap_subset f rest k hmem))
        simp [List.filterMap_cons, hf, alist_lookup, hnone]
      | some s =>
        simp [List.filterMap_cons, hf, alist_lookup]
    · cases hf : f v with
      | none => simpa [List.filterMap_cons, alist_lookup, hkd, hf] using ih hrest
      | some s => simpa [List.filterMap_cons, alist_lookup, hkd, hf] using ih hrest

/-- Lookup in the full statistics map of an event sequence: present with
the recorded entry exactly when the digraph has at least two adjacent
occurrences. -/
theorem alist_lookup_stats_of (events : List KeyEvent) (d : Digraph) :
    alist_lookup (stats_of events) d =
      if 2 ≤ adjacent_count events d then
        some ⟨adjacent_count events d,
          Statistical.mean (((adjacent_samples events).filter
            (fun p => p.1 = d)).map Prod.snd),
          Statistical.standard_deviation (((adjacent_samples events).filter
            (fun p => p.1 = d)).map Prod.snd)
            (Statistical.mean (((adjacent_samples events).filter
              (fun p => p.1 = d)).map Prod.snd))⟩
      else none := by
  rw [stats_of, KeystrokeLogger.compute_digraph_statistics]
  rw [alist_lookup_filterMap stats_entry _ (nodup_keys_digraph_samples events) d]
  rw [alist_lookup_digraph_samples]
  by_cases h : ((adjacent_samples events).filter (fun p => p.1 = d)) = []
  · have hc : adjacent_count events d = 0 := by
      simp [adjacent_count, h]
    simp [h, hc]
  · have hlen : (((adjacent_samples events).filter (fun p => p.1 = d)).map
        Prod.snd).length = adjacent_count events d := by
      simp [adjacent_count]
    rw [if_neg h]
    by_cases h2 : 2 ≤ adjacent_count events d
    · simp only [Option.some_bind, stats_entry, hlen, if_pos h2]
    · simp only [Option.some_bind, stats_entry, hlen, if_neg h2]

/-- C3: a digraph is present in the statistics map iff it occurs as the
keys of adjacent events at least twice; when present, its `size_samples`
is exactly the number of such adjacent pairs; a digraph with exactly one
adjacent occurrence is absent. -/
theorem claim_C3 (events : List KeyEvent) (d : Digraph) :
    ((alist_lookup (stats_of events) d).isSome ↔ 2 ≤ adjacent_count events d) ∧
    (∀ s, alist_lookup (stats_of events) d = some s →
      s.size_samples = adjacent_count events d) ∧
    (adjacent_count events d = 1 → alist_lookup (stats_of events) d = none) := by
  have key := alist_lookup_stats_of events d
  by_cases h2 : 2 ≤ adjacent_count events d
  · rw [if_pos h2] at key
    refine ⟨by simp [key, h2], ?_, ?_⟩
    · intro s hs
      rw [key] at hs
      cases Option.some.inj hs
      rfl
    · intro h1
      omega
  · rw [if_neg h2] at key
    refine ⟨by simp [key, h2], ?_, fun _ => key⟩
    intro s hs
    rw [key] at hs
    cases hs

/-- Witness for C3: a digraph typed only once is absent from the map. -/
theorem claim_C3_witness :
    alist_lookup (stats_of [kev 0 'a', kev 5 'b']) ('a', 'b') = none :=
  (claim_C3 [kev 0 'a', kev 5 'b'] ('a', 'b')).2.2 (by decide)

/-- C9 counterexample: `set_events_limit` with a limit smaller than the
current length does not evict — the log still holds two events under a
configured limit of one. -/
theorem counterexample_C9 :
    ((KeystrokeLogger.mk [kev 0 'a', kev 1 'b'] none).set_events_limit
        1).events_limit = some 1 ∧
      ((KeystrokeLogger.mk [kev 0 'a', kev 1 'b'] none).set_events_limit
        1).events.length = 2 :=
  ⟨rfl, rfl⟩

/-- C9 as amended: with a configured limit, `add_key_event` keeps exactly
the most recent events in arrival order (the suffix of `old ++ [new]`) and
never leaves more than `limit` events; `set_events_limit` only records the
limit and does not evict, so a smaller limit takes effect at the next
append rather than immediately. -/
theorem claim_C9_amended :
    (∀ (k : KeystrokeLogger) (e : KeyEvent) (limit : ℕ),
      k.events_limit = some limit →
        (k.add_key_event e).events =
            (k.events ++ [e]).drop ((k.events.length + 1) - limit) ∧
          (k.add_key_event e).events.length ≤ limit) ∧
    (∀ (k : KeystrokeLogger) (limit : ℕ),
      (k.set_events_limit limit).events = k.events) := by
  constructor
  · intro k e limit h
    simp only [KeystrokeLogger.add_key_event, h]
    by_cases hlt : limit < (k.events ++ [e]).length
    · rw [if_pos hlt]
      rw [List.length_append] at hlt ⊢
      simp only [List.length_cons, List.length_nil] at hlt ⊢
      refine ⟨by trivial, ?_⟩
      rw [List.length_drop, List.length_append]
      simp only [List.length_cons, List.length_nil]
      omega
    · rw [if_neg hlt]
      rw [List.length_append] at hlt
      simp only [List.length_cons, List.length_nil] at hlt
      have h0 : (k.events.length + 1) - limit = 0 := by omega
      refine ⟨by rw [h0, List.drop_zero], ?_⟩
      rw [List.length_append]
      simp only [List.length_cons, List.length_nil]
      omega
  · intro k limit
    rfl

/-- Witness for C9 at a two-event log with limit 2. -/
theorem claim_C9_witness :
    ((KeystrokeLogger.mk [kev 0 'a', kev 1 'b'] (some 2)).add_key_event
          (kev 2 'c')).events =
        ([kev 0 'a', kev 1 'b'] ++ [kev 2 'c']).drop 1 ∧
      ((KeystrokeLogger.mk [kev 0 'a', kev 1 'b'] (some 2)).add_key_event
          (kev 2 'c')).events.length ≤ 2 :=
  claim_C9_amended.1 (KeystrokeLogger.mk [kev 0 'a', kev 1 'b'] (some 2))
    (kev 2 'c') 2 rfl

/-- C5 counterexample: with `n_sample = 0` and `n_profile` within range the
code panics on `n_profile % n_sample` (Rust remainder by zero) instead of
returning the absent result the claim promises. -/
theorem counterexample_C5 :
    KeynomeAuthenticator.compute_diff_base [] 0 0 params_example =
        DiffBaseResult.crash ∧
      DiffBaseResult.crash ≠ DiffBaseResult.noResult :=
  ⟨rfl, by decide⟩

/-- C5 as amended: the result is absent exactly when `n_profile` exceeds
the available events or (`n_sample` is positive and does not divide
`n_profile`); the call panics exactly when `n_profile` is within range and
`n_sample = 0`; in every other case it returns a value. -/
theorem claim_C5_amended (events : List KeyEvent) (np ns : ℕ)
    (p : KeynomeAuthenticatorDiffParams) :
    (KeynomeAuthenticator.compute_diff_base events np ns p =
          DiffBaseResult.noResult ↔
        events.length < np ∨ (0 < ns ∧ np % ns ≠ 0)) ∧
      (KeynomeAuthenticator.compute_diff_base events np ns p =
          DiffBaseResult.crash ↔ np ≤ events.length ∧ ns = 0) ∧
      (np ≤ events.length → 0 < ns → np % ns = 0 →
        ∃ v, KeynomeAuthenticator.compute_diff_base events np ns p =
          DiffBaseResult.value v) := by
  simp only [KeynomeAuthenticator.compute_diff_base]
  split_ifs with h1 h2 h3 h4
  · refine ⟨by simp [h1], by simp [Nat.lt_iff_add_one_le] at h1 ⊢; omega, ?_⟩
    intro hle _ _
    omega
  · refine ⟨by simp; omega, by simp; omega, ?_⟩
    intro _ hns _
    omega
  · refine ⟨by simp; omega, by simp; omega, ?_⟩
    intro _ _ hmod
    omega
  · exact ⟨by simp; omega, by simp; omega, fun _ _ _ => ⟨FVal.nan, rfl⟩⟩
  · exact ⟨by simp; omega, by simp; omega, fun _ _ _ => ⟨_, rfl⟩⟩

/-- Witness for C5 at an in-range, evenly divisible input. -/
theorem claim_C5_witness :
    ∃ v, KeynomeAuthenticator.compute_diff_base [kev 0 'a', kev 1 'b'] 2 1
      params_example = DiffBaseResult.value v :=
  (claim_C5_amended [kev 0 'a', kev 1 'b'] 2 1 params_example).2.2
    (by decide) (by decide) (by decide)

theorem ratSqrt_nonneg (q : ℚ) : 0 ≤ ratSqrt q := by
  unfold ratSqrt
  positivity

theorem diff_divisor_nonneg (p : KeynomeAuthenticatorDiffParams)
    (v : DigraphStats) (h : 0 ≤ v.std) : 0 ≤ diff_divisor p v := by
  unfold diff_divisor
  split_ifs
  · linarith
  · norm_num

/-- The `compute_diff` loop never drives the accumulator negative when the
profile standard deviations are nonnegative. -/
theorem compute_diff_loop_nonneg (sample : List (Digraph × DigraphStats))
    (p : KeynomeAuthenticatorDiffParams) :
    ∀ (l : List (Digraph × DigraphStats)) (diff : ℚ) (n : ℕ), 0 ≤ diff →
      (∀ kv ∈ l, 0 ≤ kv.2.std) → 0 ≤ compute_diff_loop sample p l diff n := by
  intro l
  induction l with
  | nil =>
    intro diff n h _
    simpa [compute_diff_loop] using h
  | cons kv rest ih =>
    intro diff n hd hstd
    obtain ⟨k, v⟩ := kv
    have hv : 0 ≤ v.std := hstd (k, v) (by simp)
    have hrest : ∀ kv ∈ rest, 0 ≤ kv.2.std := fun kv hkv =>
      hstd kv (List.mem_cons_of_mem _ hkv)
    simp only [compute_diff_loop]
    by_cases hskip : v.size_samples < p.min_instances
    · rw [if_pos hskip]
      exact ih diff n hd hrest
    · rw [if_neg hskip]
      cases hl : alist_lookup sample k with
      | some vs =>
        have hadd : 0 ≤ diff + |v.mean - vs.mean| / diff_divisor p v := by
          have := div_nonneg (abs_nonneg (v.mean - vs.mean))
            (diff_divisor_nonneg p v hv)
          linarith
        by_cases hmax : p.max_comparisons ≤ n + 1
        · simpa [hmax] using hadd
        · simpa [hmax] using ih _ (n + 1) hadd hrest
      | none =>
        by_cases hmax : p.max_comparisons ≤ n
        · simpa [hmax] using hd
        · simpa [hmax] using ih diff n hd hrest

/-- The function `compute_diff` is nonnegative whenever the profile `std` fields are. -/
theorem compute_diff_nonneg
    (stats_profile stats_sample : List (Digraph × DigraphStats))
    (p : KeynomeAuthenticatorDiffParams)
    (h : ∀ kv ∈ stats_profile, 0 ≤ kv.2.std) :
    0 ≤ KeynomeAuthenticator.compute_diff stats_profile stats_sample p :=
  compute_diff_loop_nonneg stats_sample p stats_profile 0 0 le_rfl h

/-- Every `std` recorded by `compute_digraph_statistics` is a square root,
hence nonnegative. -/
theorem compute_digraph_statistics_std_nonneg (k : KeystrokeLogger) :
    ∀ kv ∈ k.compute_digraph_statistics, 0 ≤ kv.2.std := by
  intro kv hkv
  unfold KeystrokeLogger.compute_digraph_statistics at hkv
  rw [List.mem_filterMap] at hkv
  obtain ⟨q, hq, hsome⟩ := hkv
  cases hse : stats_entry q.2 with
  | none => rw [hse] at hsome; cases hsome
  | some s =>
    rw [hse] at hsome
    rw [show Option.map (fun s => (q.1, s)) (some s) = some (q.1, s) from
      rfl] at hsome
    cases Option.some.inj hsome
    unfold stats_entry at hse
    by_cases h2 : 2 ≤ q.2.length
    · rw [if_pos h2] at hse
      cases Option.some.inj hse
      exact ratSqrt_nonneg _
    · rw [if_neg h2] at hse
      cases hse

theorem foldl_add_nonneg {α : Type} (f : α → ℚ) :
    ∀ (l : List α) (a : ℚ), 0 ≤ a → (∀ i ∈ l, 0 ≤ f i) →
      0 ≤ l.foldl (fun acc i => acc + f i) a := by
  intro l
  induction l with
  | nil =>
    intro a h _
    simpa using h
  | cons x rest ih =>
    intro a h hall
    simp only [List.foldl_cons]
    refine ih _ ?_ (fun i hi => hall i (List.mem_cons_of_mem _ hi))
    have := hall x (List.mem_cons_self x rest)
    linarith

/-- C10 counterexample: at `n_profile = 0` the final division is
`0.0 / 0.0`, so the calibration result is NaN, which is not `≥ 0` under
IEEE comparison. -/
theorem counterexample_C10 :
    KeynomeAuthenticator.compute_diff_base [] 0 1 params_example =
        DiffBaseResult.value FVal.nan ∧
      ¬ FVal.Nonneg FVal.nan :=
  ⟨rfl, fun h => h⟩

/-- C10 as amended: `compute_diff` is nonnegative for every pair of
statistics maps whose profile `std` fields are nonnegative, and every
calibration value produced with `n_profile ≥ 1` is a nonnegative number;
at `n_profile = 0` the produced value is the non-number `0.0 / 0.0`. -/
theorem claim_C10_amended :
    (∀ (stats_profile stats_sample : List (Digraph × DigraphStats))
        (p : KeynomeAuthenticatorDiffParams),
        (∀ kv ∈ stats_profile, 0 ≤ kv.2.std) →
        0 ≤ KeynomeAuthenticator.compute_diff stats_profile stats_sample p) ∧
      (∀ (events : List KeyEvent) (np ns : ℕ)
        (p : KeynomeAuthenticatorDiffParams) (v : FVal), 0 < np →
        KeynomeAuthenticator.compute_diff_base events np ns p =
          DiffBaseResult.value v →
        FVal.Nonneg v) := by
  refine ⟨fun profile sample p h => compute_diff_nonneg profile sample p h, ?_⟩
  intro events np ns p v hnp hv
  simp only [KeynomeAuthenticator.compute_diff_base] at hv
  split_ifs at hv with h1 h2 h3 h4
  · cases hv
    exfalso
    have hmod : np % ns = 0 := by omega
    have hdiv := Nat.mod_add_div np ns
    rw [hmod, h4] at hdiv
    omega
  · cases hv
    show (0 : ℚ) ≤ _
    refine div_nonneg ?_ (by positivity)
    refine foldl_add_nonneg _ _ 0 le_rfl ?_
    intro i _
    exact compute_diff_nonneg _ _ p
      (compute_digraph_statistics_std_nonneg _)

/-- Witness for C10 at concrete inputs. -/
theorem claim_C10_witness :
    (0 ≤ KeynomeAuthenticator.compute_diff [(('a', 'b'), ⟨2, 100, 5⟩)] []
        params_example) ∧
      FVal.Nonneg (FVal.fin 0) :=
  ⟨claim_C10_amended.1 [(('a', 'b'), ⟨2, 100, 5⟩)] [] params_example
      (by simp),
    claim_C10_amended.2 [kev 0 'a', kev 1 'b'] 2 2 params_example
      (FVal.fin 0) (by decide)
      (by simp [KeynomeAuthenticator.compute_diff_base,
        KeystrokeLogger.add_key_event, KeystrokeLogger.new,
        KeystrokeLogger.compute_digraph_statistics, digraph_samples,
        adjacent_samples, upsert, stats_entry, kev, List.range_succ,
        KeynomeAuthenticator.compute_diff, compute_diff_loop])⟩

/-- Folding `add_key_event` into an unbounded logger appends the events. -/
theorem foldl_add_key_event (l : List KeyEvent) :
    ∀ es : List KeyEvent,
      List.foldl KeystrokeLogger.add_key_event ⟨es, none⟩ l = ⟨es ++ l, none⟩ := by
  induction l with
  | nil => intro es; simp
  | cons e rest ih =>
    intro es
    rw [List.foldl_cons]
    rw [show (KeystrokeLogger.mk es none).add_key_event e =
        ⟨es ++ [e], none⟩ from rfl]
    rw [ih (es ++ [e])]
    simp

theorem foldl_add_map_sum {α : Type} (f : α → ℚ) :
    ∀ (l : List α) (a : ℚ),
      l.foldl (fun acc i => acc + f i) a = a + (l.map f).sum := by
  intro l
  induction l with
  | nil => intro a; simp
  | cons x rest ih =>
    intro a
    rw [List.foldl_cons, ih, List.map_cons, List.sum_cons]
    ring

/-- Evaluation of the digraph statistics of the full twelve-event window
(std values are the floor approximations of `sqrt 800000` and
`sqrt 450000`; they are not used by the diff, which runs with
`dispersion = false`). -/
theorem stats_of_events12_eval :
    stats_of events12 =
      [(('a', 'b'), ⟨6, 1500, 894⟩), (('b', 'a'), ⟨5, 1300, 670⟩)] := by
  simp [stats_of, KeystrokeLogger.compute_digraph_statistics, digraph_samples,
    events12, events6, events6b, kev, adjacent_samples, upsert, stats_entry,
    Statistical.mean, Statistical.standard_deviation, ratSqrt]
  norm_num
  decide

/-- Evaluation of the digraph statistics of the second six-event chunk. -/
theorem stats_of_events6b_eval :
    stats_of events6b =
      [(('a', 'b'), ⟨3, 1000, 500⟩), (('b', 'a'), ⟨2, 1250, 1060⟩)] := by
  simp [stats_of, KeystrokeLogger.compute_digraph_statistics, digraph_samples,
    events6b, kev, adjacent_samples, upsert, stats_entry, Statistical.mean,
    Statistical.standard_deviation, ratSqrt]
  norm_num
  decide

theorem diff_profile_chunk1_eval :
    KeynomeAuthenticator.compute_diff (stats_of events12) (stats_of events6)
      params_example = 800 := by
  rw [stats_of_events12_eval, stats_of_events6_eval]
  simp [KeynomeAuthenticator.compute_diff, compute_diff_loop, alist_lookup,
    diff_divisor, params_example]
  norm_num

theorem diff_profile_chunk2_eval :
    KeynomeAuthenticator.compute_diff (stats_of events12) (stats_of events6b)
      params_example = 550 := by
  rw [stats_of_events12_eval, stats_of_events6b_eval]
  simp [KeynomeAuthenticator.compute_diff, compute_diff_loop, alist_lookup,
    diff_divisor, params_example]
  norm_num

theorem compute_diff_base_675_eval :
    KeynomeAuthenticator.compute_diff_base events12 12 6 params_example =
      DiffBaseResult.value (FVal.fin 675) := by
  simp [KeynomeAuthenticator.compute_diff_base, events12, events6, events6b,
    kev, KeystrokeLogger.new, KeystrokeLogger.add_key_event, List.range_succ,
    KeystrokeLogger.compute_digraph_statistics, digraph_samples,
    adjacent_samples, upsert, stats_entry, Statistical.mean,
    Statistical.standard_deviation, ratSqrt,
    KeynomeAuthenticator.compute_diff, compute_diff_loop, alist_lookup,
    diff_divisor, params_example]
  norm_num

/-- C4: under the preconditions (a positive enrollment window within the
available history, evenly divisible into chunks), `compute_diff_base`
takes the most recent `n_profile` events as the profile window, partitions
that same window into `n_profile / n_sample` contiguous chunks of
`n_sample` events in temporal order, and returns the arithmetic mean over
the chunks of `compute_diff(profile_stats, chunk_stats, params)`; on the
twelve-event worked example with `dispersion = false` the per-chunk diffs
are 800.0 and 550.0 and the result is 675.0. -/
theorem claim_C4 :
    (∀ (events : List KeyEvent) (np ns : ℕ)
        (p : KeynomeAuthenticatorDiffParams),
        0 < np → np ≤ events.length → ns ∣ np →
        KeynomeAuthenticator.compute_diff_base events np ns p =
          DiffBaseResult.value (FVal.fin
            (((List.range (np / ns)).map (fun i =>
              KeynomeAuthenticator.compute_diff
                (stats_of (events.drop (events.length - np)))
                (stats_of (((events.drop (events.length - np)).drop
                  (ns * i)).take ns)) p)).sum / ((np / ns : ℕ) : ℚ)))) ∧
      KeynomeAuthenticator.compute_diff (stats_of events12) (stats_of events6)
          params_example = 800 ∧
      KeynomeAuthenticator.compute_diff (stats_of events12)
          (stats_of events6b) params_example = 550 ∧
      KeynomeAuthenticator.compute_diff_base events12 12 6 params_example =
        DiffBaseResult.value (FVal.fin 675) := by
  refine ⟨?_, diff_profile_chunk1_eval, diff_profile_chunk2_eval,
    compute_diff_base_675_eval⟩
  intro events np ns p hnp hle hdvd
  have hns : 0 < ns := by
    rcases Nat.eq_zero_or_pos ns with h | h
    · subst h
      have := Nat.eq_zero_of_zero_dvd hdvd
      omega
    · exact h
  have hmod : np % ns = 0 := by
    obtain ⟨c, rfl⟩ := hdvd
    exact Nat.mul_mod_right ns c
  have hm : 0 < np / ns := Nat.div_pos (Nat.le_of_dvd hnp hdvd) hns
  simp only [KeynomeAuthenticator.compute_diff_base]
  rw [if_neg (by omega), if_neg (by omega), if_neg (by simp [hmod]),
    if_neg (by omega)]
  rw [foldl_add_map_sum (fun i =>
    KeynomeAuthenticator.compute_diff
      (List.foldl KeystrokeLogger.add_key_event KeystrokeLogger.new
        (events.drop (events.length - np))).compute_digraph_statistics
      (List.foldl KeystrokeLogger.add_key_event KeystrokeLogger.new
        ((events.drop (events.length - np + ns * i)).take
          (events.length - np + ns * (i + 1) -
            (events.length - np + ns * i)))).compute_digraph_statistics
      p) (List.range (np / ns)) 0]
  rw [zero_add]
  refine congrArg (fun q => DiffBaseResult.value (FVal.fin q)) ?_
  refine congrArg (fun q : ℚ => q / ((np / ns : ℕ) : ℚ)) ?_
  refine congrArg List.sum ?_
  refine List.map_congr_left fun i hi => ?_
  have hwin : List.foldl KeystrokeLogger.add_key_event KeystrokeLogger.new
      (events.drop (events.length - np)) =
      ⟨events.drop (events.length - np), none⟩ := by
    rw [show KeystrokeLogger.new = (⟨[], none⟩ : KeystrokeLogger) from rfl]
    rw [foldl_add_key_event]
    simp
  have htake : events.length - np + ns * (i + 1) -
      (events.length - np + ns * i) = ns := by
    rw [Nat.mul_succ]
    omega
  have hchunk : (events.drop (events.length - np + ns * i)).take
      (events.length - np + ns * (i + 1) - (events.length - np + ns * i)) =
      ((events.drop (events.length - np)).drop (ns * i)).take ns := by
    rw [htake, List.drop_drop]
  rw [hwin, hchunk]
  have hchunkfold : List.foldl KeystrokeLogger.add_key_event
      KeystrokeLogger.new
      (((events.drop (events.length - np)).drop (ns * i)).take ns) =
      ⟨((events.drop (events.length - np)).drop (ns * i)).take ns, none⟩ := by
    rw [show KeystrokeLogger.new = (⟨[], none⟩ : KeystrokeLogger) from rfl]
    rw [foldl_add_key_event]
    simp
  rw [hchunkfold]
  rfl

/-- Witness for C4 at the twelve-event example window. -/
theorem claim_C4_witness :
    KeynomeAuthenticator.compute_diff_base events12 12 6 params_example =
      DiffBaseResult.value (FVal.fin
        (((List.range (12 / 6)).map (fun i =>
          KeynomeAuthenticator.compute_diff
            (stats_of (events12.drop (events12.length - 12)))
            (stats_of (((events12.drop (events12.length - 12)).drop
              (6 * i)).take 6)) params_example)).sum / ((12 / 6 : ℕ) : ℚ))) :=
  claim_C4.1 events12 12 6 params_example (by decide) (by decide) (by decide)

/-- C6 counterexample: a digraph whose first character is `'-'` serializes
to the key `"--a"`, whose first split segment is empty, so `vec_k1[0]`
panics during deserialization — the round trip crashes instead of
reproducing the map. -/
theorem counterexample_C6 :
    KeystrokeLogger.deserialize_digraph_statistics
      (KeystrokeLogger.serialize_digraph_statistics
        [(('-', 'a'), ⟨2, 5, 0⟩)]) = none := rfl

/-- C6 as amended: for every statistics map none of whose digraph
characters is the separator `'-'`, serializing and deserializing
reproduces exactly the same map — the same digraph keys, each with
identical `size_samples`, `mean` and `std`; a digraph containing `'-'`
instead makes deserialization panic. -/
theorem claim_C6_amended (stats : List (Digraph × DigraphStats))
    (h : ∀ kv ∈ stats, kv.1.1 ≠ '-' ∧ kv.1.2 ≠ '-') :
    KeystrokeLogger.deserialize_digraph_statistics
      (KeystrokeLogger.serialize_digraph_statistics stats) = some stats := by
  induction stats with
  | nil => rfl
  | cons kv rest ih =>
    obtain ⟨⟨c1, c2⟩, sv⟩ := kv
    have hc := h ((c1, c2), sv) (List.mem_cons_self _ _)
    have hrest := ih (fun kv hkv => h kv (List.mem_cons_of_mem _ hkv))
    have hparse : parse_digraph_key (digraph_key (c1, c2)) = some (c1, c2) := by
      simp [digraph_key, parse_digraph_key, split_dash, hc.1, hc.2]
    show KeystrokeLogger.deserialize_digraph_statistics
      ((digraph_key (c1, c2), sv) ::
        KeystrokeLogger.serialize_digraph_statistics rest) = _
    rw [KeystrokeLogger.deserialize_digraph_statistics, hparse, hrest]

/-- Witness for C6 at a one-entry map with ordinary characters. -/
theorem claim_C6_witness :
    KeystrokeLogger.deserialize_digraph_statistics
      (KeystrokeLogger.serialize_digraph_statistics
        [(('a', 'b'), ⟨3, 7, 2⟩)]) = some [(('a', 'b'), ⟨3, 7, 2⟩)] :=
  claim_C6_amended [(('a', 'b'), ⟨3, 7, 2⟩)] (by simp)

/-- C7: the diff score depends on the profile map's iteration order, not
only on its contents — with `max_comparisons = 1`, the same two-entry
profile map iterated in its two possible `HashMap` orders (the lists are
permutations of each other, so they hold the same key-value pairs) scores
100 against one order and 200 against the other. -/
theorem claim_C7_order_dependence :
    KeynomeAuthenticator.compute_diff
        [(('a', 'b'), ⟨2, 100, 0⟩), (('b', 'a'), ⟨2, 200, 0⟩)]
        [(('a', 'b'), ⟨2, 0, 0⟩), (('b', 'a'), ⟨2, 0, 0⟩)]
        ⟨false, 1, 1⟩ = 100 ∧
      KeynomeAuthenticator.compute_diff
        [(('b', 'a'), ⟨2, 200, 0⟩), (('a', 'b'), ⟨2, 100, 0⟩)]
        [(('a', 'b'), ⟨2, 0, 0⟩), (('b', 'a'), ⟨2, 0, 0⟩)]
        ⟨false, 1, 1⟩ = 200 ∧
      List.Perm
        [(('a', 'b'), (⟨2, 100, 0⟩ : DigraphStats)),
          (('b', 'a'), ⟨2, 200, 0⟩)]
        [(('b', 'a'), ⟨2, 200, 0⟩), (('a', 'b'), ⟨2, 100, 0⟩)] := by
  refine ⟨?_, ?_, List.Perm.swap _ _ _⟩
  · simp [KeynomeAuthenticator.compute_diff, compute_diff_loop, alist_lookup,
      diff_divisor]
  · simp [KeynomeAuthenticator.compute_diff, compute_diff_loop, alist_lookup,
      diff_divisor]

/-- C8: deserialization does not fail with a surfaced parse error on keys
that do not split into exactly two one-character segments — the key
`"ab-cd"` is silently accepted as the digraph `('a', 'c')`, and the
dash-free key `"ab"` makes the call panic (out-of-bounds index on the
split vector) rather than return an error. -/
theorem claim_C8_no_parse_error :
    KeystrokeLogger.deserialize_digraph_statistics
        [(['a', 'b', '-', 'c', 'd'], ⟨2, 10, 0⟩)] =
      some [(('a', 'c'), ⟨2, 10, 0⟩)] ∧
      KeystrokeLogger.deserialize_digraph_statistics
        [(['a', 'b'], ⟨2, 10, 0⟩)] = none :=
  ⟨rfl, rfl⟩

end Keynome
